import Mathlib

/-!
Verification development for the asynchronous PR-analysis pipeline
(`app/tasks.py`, `app/ai_agent.py`, `app/github_service.py`, `app/main.py`).

The Python code is shallowly embedded:
* findings/issues are records of the fields the orchestrator actually reads
  (`line`, `description`, the forced `type`, `suggestion`);
* the four analysis agents are modelled as a record of four functions
  `code → filename → List Issue` (each agent class catches every failure of
  the generation call and returns `[]`, so at the orchestrator boundary an
  agent is a total function);
* Python dicts keyed by filename are modelled as `String → Option String`;
* the Celery task body is a function that either returns a result together
  with the updated store, or raises (`Except`), after which the `except`
  clause applies the substring-based terminal/transient classification and
  the `self.retry(countdown=5)` / `max_retries=2` policy;
* string slicing `code[:10000]` is character-based in Python and is embedded
  as `List.take` on `String.data`.
-/

namespace CodeReview

/-- One reported issue, as the orchestrator consumes it: the fields read by
`analyze_file` (`issue.get('line')`, `issue.get('description')`, the `'type'`
key it overwrites) and the `suggestion` payload. `line`/`description`/
`suggestion` may be absent in the agent's JSON, hence `Option`. -/
structure Issue where
  line : Option Int
  description : Option String
  category : String
  suggestion : Option String
deriving DecidableEq

/-- Result of `analyze_file` for one file: `{"name": filename, "issues": ...}`. -/
structure FileResult where
  name : String
  issues : List Issue
deriving DecidableEq

/-- The `summary` dict built by `CodeReviewOrchestrator.analyze_pr`. -/
structure Summary where
  total_files : Nat
  total_issues : Nat
  critical_issues : Nat
  agent_used : String
deriving DecidableEq

/-- The value returned by `CodeReviewOrchestrator.analyze_pr`
(`{"files": ..., "summary": ...}`). -/
structure AnalysisResult where
  files : List FileResult
  summary : Summary
deriving DecidableEq

/-- One element of the GitHub PR file listing; the pipeline reads only
`file_data.get("filename", "")`. -/
structure PRFile where
  filename : String
deriving DecidableEq

/-- The four agents of `CodeReviewOrchestrator`, abstracted over the
generation service: each maps `(code, filename)` to the list of issues it
reports (its own error handling already collapsed failures to `[]`). -/
structure Analyzers where
  style : String → String → List Issue
  bug : String → String → List Issue
  performance : String → String → List Issue
  best_practices : String → String → List Issue

/-- The dedup key used by `analyze_file`:
`key = (issue.get('line'), issue.get('description'))`. -/
def dedupKey (i : Issue) : Option Int × Option String :=
  (i.line, i.description)

/-- The dedup loop of `analyze_file`: walk `all_issues`, keep an issue iff its
key is not in `seen`, adding kept keys to `seen`. -/
def dedupLoop : List Issue → List (Option Int × Option String) → List Issue
  | [], _ => []
  | i :: rest, seen =>
    if dedupKey i ∈ seen then dedupLoop rest seen
    else i :: dedupLoop rest (dedupKey i :: seen)

/-- The concatenation built by `analyze_file`: each agent's issues with the
`'type'` field forced to that agent's category, in the fixed invocation order
style → bug → performance → best_practice. -/
def taggedIssues (ag : Analyzers) (code filename : String) : List Issue :=
  ((ag.style code filename).map fun i => { i with category := "style" }) ++
  ((ag.bug code filename).map fun i => { i with category := "bug" }) ++
  ((ag.performance code filename).map fun i => { i with category := "performance" }) ++
  ((ag.best_practices code filename).map fun i => { i with category := "best_practice" })

/-- `CodeReviewOrchestrator.analyze_file`: run all four agents, force
categories, deduplicate by `(line, description)` keeping first occurrences,
truncate to 10. -/
def analyze_file (ag : Analyzers) (code filename : String) : FileResult :=
  { name := filename
    issues := (dedupLoop (taggedIssues ag code filename) []).take 10 }

/-- The recognized source-code extension set of
`CodeReviewOrchestrator._is_code_file`. -/
def code_extensions : List String :=
  [".py", ".js", ".ts", ".tsx", ".jsx", ".java", ".go", ".rs",
   ".cpp", ".c", ".rb", ".php", ".swift", ".kt", ".scala", ".sh"]

/-- `CodeReviewOrchestrator._is_code_file`: `any(filename.endswith(ext))`. -/
def is_code_file (filename : String) : Bool :=
  code_extensions.any fun ext => ext.data.isSuffixOf filename.data

/-- Python's character-based slice `s[:n]`. -/
def strTake (s : String) (n : Nat) : String :=
  String.mk (s.data.take n)

/-- Loop body of `CodeReviewOrchestrator.analyze_pr` for one `file_data`
entry; the accumulator is the pair `(all_issues, results_files)`. -/
def prStep (ag : Analyzers) (fc : String → Option String)
    (acc : List Issue × List FileResult) (file_data : PRFile) :
    List Issue × List FileResult :=
  let filename := file_data.filename
  if ¬ is_code_file filename then acc
  else
    match fc filename with
    | none => acc
    | some code =>
      if code.length = 0 then acc
      else
        let code := if code.length > 10000 then strTake code 10000 else code
        let analysis := analyze_file ag code filename
        if analysis.issues.isEmpty then acc
        else (acc.1 ++ analysis.issues, acc.2 ++ [analysis])

/-- `CodeReviewOrchestrator.analyze_pr`: fold the per-file loop over the PR
file list, then assemble the summary
(`critical_issues` counts issues whose forced type is `"bug"`). -/
def analyze_pr (ag : Analyzers) (pr_files : List PRFile)
    (fc : String → Option String) : AnalysisResult :=
  let acc := pr_files.foldl (prStep ag fc) ([], [])
  { files := acc.2
    summary :=
      { total_files := acc.2.length
        total_issues := acc.1.length
        critical_issues := (acc.1.filter fun i => i.category = "bug").length
        agent_used := "LangChain Multi-Agent (Ollama)" } }

/-- The durable job record (`CodeReviewTask`), restricted to the fields this
core reads and writes: `status`, `results` (the JSON string written by
`json.dumps`), `error_message`. Timestamps are elided (no claim mentions
them). -/
structure TaskRecord where
  status : String
  results : Option String
  error_message : Option String
deriving DecidableEq

/-- The job store keyed by `task_id` (the database as the task sees it). -/
def Store : Type := String → Option TaskRecord

/-- Write one record into the store. -/
def setTask (store : Store) (tid : String) (t : TaskRecord) : Store :=
  fun id => if id = tid then some t else store id

/-- Lines 43–47 of `tasks.py`: query the record and, only if it exists, set
`status = "processing"` (no other field is touched). -/
def markProcessing (store : Store) (task_id : String) : Store :=
  match store task_id with
  | some task => setTask store task_id { task with status := "processing" }
  | none => store

/-- Lines 80–86 of `tasks.py`: on success set `status = "completed"`, store
the serialized results and clear `error_message`. -/
def markCompleted (store : Store) (task_id : String) (payload : String) : Store :=
  match store task_id with
  | some task =>
      setTask store task_id
        { task with status := "completed", results := some payload, error_message := none }
  | none => store

/-- Lines 95–100 of `tasks.py`: on failure set `status = "failed"` and record
the message; `results` is left as it was. -/
def markFailed (store : Store) (task_id : String) (msg : String) : Store :=
  match store task_id with
  | some task =>
      setTask store task_id { task with status := "failed", error_message := some msg }
  | none => store

/-- Python's substring test `pat in msg`. -/
def strContains (msg pat : String) : Bool :=
  decide (pat.data <:+: msg.data)

/-- Line 104 of `tasks.py`: the terminal-failure classifier
`"not configured" in str(e) or "No code files" in str(e)`. -/
def isTerminalMsg (msg : String) : Bool :=
  strContains msg "not configured" || strContains msg "No code files"

/-- The message raised at line 55 of `tasks.py` when the PR file list is
empty. -/
def noCodeFilesMsg : String :=
  "No code files found in PR or PR not accessible (may need valid GitHub token)"

/-- `GitHubService.get_pr_files`, abstracted over the HTTP call it makes:
both `except` clauses turn any error into an empty list. (URL parsing, which
can also yield `[]`, is folded into the call outcome.) -/
def get_pr_files (http : Except String (List PRFile)) : List PRFile :=
  match http with
  | .ok files => files
  | .error _ => []

/-- Loop body of the content-fetch phase (lines 61–70 of `tasks.py`) for one
`file_data`: call `get_file_content` (which swallows its own errors into
`None`) and store the content only when it is truthy and shorter than
100000 characters. -/
def fetchStep (fetch : String → Option String) (fc : String → Option String)
    (file_data : PRFile) : String → Option String :=
  let filename := file_data.filename
  match fetch filename with
  | some content =>
      if content.length ≠ 0 ∧ content.length < 100000 then
        fun f => if f = filename then some content else fc f
      else fc
  | none => fc

/-- The content-fetch phase of `analyze_github_pr`: build the
`file_contents` dict by folding `fetchStep` over `pr_files[:15]`. -/
def fetch_contents (fetch : String → Option String) (pr_files : List PRFile) :
    String → Option String :=
  (pr_files.take 15).foldl (fetchStep fetch) (fun _ => none)

/-- The collaborators of one execution of the Celery task `analyze_github_pr`:
the HTTP outcome behind `get_pr_files`, the per-filename outcome of
`get_file_content` (already error-swallowed to `none`), the analysis step
(`CodeReviewOrchestrator()` + `analyze_pr`, which can raise — e.g. the
constructor, or `analyze_file`'s dict operations on a malformed parsed
finding — modelled with `Except`), and `json.dumps`. -/
structure RunEnv where
  listFilesHTTP : Except String (List PRFile)
  fetchBlob : String → Option String
  runAnalysis : List PRFile → (String → Option String) → Except String AnalysisResult
  dumps : AnalysisResult → String

/-- The `try` block of `analyze_github_pr` (lines 39–89 of `tasks.py`):
mark processing, fetch the file list, raise on an empty list, fetch contents,
run the analysis, record completion. An error carries the store as it stood
at the raise point. -/
def runBody (env : RunEnv) (store : Store) (task_id : String) :
    Except (String × Store) (AnalysisResult × Store) :=
  let store1 := markProcessing store task_id
  let pr_files := get_pr_files env.listFilesHTTP
  if pr_files.isEmpty then .error (noCodeFilesMsg, store1)
  else
    let fc := fetch_contents env.fetchBlob pr_files
    match env.runAnalysis pr_files fc with
    | .error msg => .error (msg, store1)
    | .ok analysis_results =>
        .ok (analysis_results, markCompleted store1 task_id (env.dumps analysis_results))

/-- Observable outcome of one execution of the Celery task: a normal return,
a re-raised exception (Celery marks the task failed, schedules nothing), or a
`self.retry(exc=e, countdown=5)` (re-delivery of the same task id after the
countdown). -/
inductive Outcome where
  | success (result : AnalysisResult)
  | raised (msg : String)
  | retry (msg : String) (countdown : Nat)
deriving DecidableEq

/-- One execution of the Celery task `analyze_github_pr` with the given
current retry count (`self.request.retries`; the task is declared with
`max_retries=2`): run the body; on an exception, record the failure on the
job record, then either re-raise (terminal classification, or retries
exhausted — Celery's `retry` re-raises the exception once
`retries ≥ max_retries`) or schedule a retry at countdown 5. -/
def analyze_github_pr (env : RunEnv) (store : Store) (task_id : String)
    (retries : Nat) : Outcome × Store :=
  match runBody env store task_id with
  | .ok (res, s) => (.success res, s)
  | .error (msg, sAt) =>
      let s := markFailed sAt task_id msg
      if isTerminalMsg msg then (.raised msg, s)
      else if retries < 2 then (.retry msg 5, s)
      else (.raised msg, s)

/-- The environment in which nothing raises past its own handler: the
analysis step is the real orchestrator `analyze_pr` with the given agents. -/
def nominalEnv (ag : Analyzers) (listFilesHTTP : Except String (List PRFile))
    (fetchBlob : String → Option String) (dumps : AnalysisResult → String) : RunEnv :=
  { listFilesHTTP := listFilesHTTP
    fetchBlob := fetchBlob
    runAnalysis := fun fs fc => .ok (analyze_pr ag fs fc)
    dumps := dumps }

/-- The Celery delivery loop for one logical job: execute, and as long as the
execution schedules a retry, execute again with the retry count incremented.
With `max_retries=2` at most three executions can occur; returns the final
outcome, final store, and the number of executions. -/
def runJob (env : RunEnv) (store : Store) (task_id : String) :
    Outcome × Store × Nat :=
  match analyze_github_pr env store task_id 0 with
  | (.retry _ _, s1) =>
    match analyze_github_pr env s1 task_id 1 with
    | (.retry _ _, s2) =>
      match analyze_github_pr env s2 task_id 2 with
      | (o3, s3) => (o3, s3, 3)
    | (o2, s2) => (o2, s2, 2)
  | (o1, s1) => (o1, s1, 1)

/-- The body of the `/results/{task_id}` endpoint response, restricted to the
fields the handler computes. -/
structure ResultResponse where
  task_id : String
  status : String
  error_message : Option String
  results : Option AnalysisResult
deriving DecidableEq

/-- `get_results` (lines 143–168 of `main.py`), abstracted over `json.loads`
(`loads s = none` models a `JSONDecodeError`): 404 on a missing record;
otherwise echo status and stored error; if a stored payload is truthy, parse
it, degrading a parse failure to `results = None` and
`error_message = "Invalid results JSON"`. -/
def get_results (loads : String → Option AnalysisResult) (store : Store)
    (task_id : String) : Except String ResultResponse :=
  match store task_id with
  | none => .error ("Task " ++ task_id ++ " not found")
  | some task =>
    let base : ResultResponse :=
      { task_id := task_id, status := task.status
        error_message := task.error_message, results := none }
    match task.results with
    | none => .ok base
    | some s =>
        if s.length = 0 then .ok base
        else
          match loads s with
          | some v => .ok { base with results := some v }
          | none =>
              .ok { base with results := none,
                              error_message := some "Invalid results JSON" }

/-- Deduplication as the specification words it: the first occurrence of each
`(line, description)` key is kept, subsequent equal-key findings are dropped.
Stated independently of the code's `seen`-set loop: keep the head, then
recurse on the tail with every later equal-key finding removed. -/
def specDedup : List Issue → List Issue
  | [] => []
  | i :: rest =>
      i :: specDedup (rest.filter fun j => decide (dedupKey j ≠ dedupKey i))
termination_by l => l.length
decreasing_by
  simp only [List.length_cons]
  exact Nat.lt_succ_of_le (List.length_filter_le _ _)

/-- Unfolding lemma for `specDedup` on a cons cell. -/
theorem specDedup_cons (i : Issue) (rest : List Issue) :
    specDedup (i :: rest) =
      i :: specDedup (rest.filter fun j => decide (dedupKey j ≠ dedupKey i)) := by
  rw [specDedup.eq_def]

/-- The code's `seen`-set dedup loop computes the specification's
first-occurrence dedup of the issues whose key is not already seen. -/
theorem dedupLoop_eq_specDedup (l : List Issue)
    (seen : List (Option Int × Option String)) :
    dedupLoop l seen = specDedup (l.filter fun i => decide (dedupKey i ∉ seen)) := by
  induction l generalizing seen with
  | nil => simp [dedupLoop, specDedup]
  | cons i rest ih =>
    by_cases h : dedupKey i ∈ seen
    · rw [dedupLoop, if_pos h, ih, List.filter_cons]
      simp [h]
    · rw [dedupLoop, if_neg h, ih, List.filter_cons]
      simp only [h, not_false_eq_true, decide_eq_true_eq, if_pos]
      have hf : (rest.filter fun j => decide (dedupKey j ∉ dedupKey i :: seen)) =
          (rest.filter fun j =>
            decide (dedupKey j ≠ dedupKey i) && decide (dedupKey j ∉ seen)) :=
        List.filter_congr (fun a _ => by
          by_cases h1 : dedupKey a ∈ seen <;> by_cases h2 : dedupKey a = dedupKey i <;>
            simp [h1, h2])
      rw [specDedup_cons]
      simp only [List.filter_filter]
      rw [hf]

/-- Members of the specification dedup are members of the input list. -/
theorem mem_of_mem_specDedup :
    ∀ (n : Nat) (l : List Issue), l.length ≤ n → ∀ i ∈ specDedup l, i ∈ l := by
  intro n
  induction n with
  | zero =>
    intro l hl i hi
    cases l with
    | nil => simp [specDedup] at hi
    | cons a t => simp at hl
  | succ n ih =>
    intro l hl i hi
    cases l with
    | nil => simp [specDedup] at hi
    | cons a t =>
      rw [specDedup_cons] at hi
      rcases List.mem_cons.mp hi with h | h
      · exact h ▸ List.mem_cons_self a t
      · have hlen : (t.filter fun j => decide (dedupKey j ≠ dedupKey a)).length ≤ n := by
          have := List.length_filter_le (fun j => decide (dedupKey j ≠ dedupKey a)) t
          simp at hl
          omega
        exact List.mem_cons_of_mem a
          (List.mem_of_mem_filter (ih _ hlen i h))

/-- `find?` is unchanged by filtering with a weaker predicate. -/
theorem find?_filter_of_imp (l : List Issue) (p q : Issue → Bool)
    (h : ∀ x, p x = true → q x = true) :
    (l.filter q).find? p = l.find? p := by
  induction l with
  | nil => rfl
  | cons a t ih =>
    by_cases hq : q a = true
    · rw [List.filter_cons_of_pos hq]
      by_cases hp : p a = true
      · rw [List.find?_cons_of_pos _ hp, List.find?_cons_of_pos _ hp]
      · rw [List.find?_cons_of_neg _ (by simp [hp]),
            List.find?_cons_of_neg _ (by simp [hp]), ih]
    · rw [List.filter_cons_of_neg (by simp [hq])]
      have hp : ¬ p a = true := fun hpa => hq (h a hpa)
      rw [List.find?_cons_of_neg _ (by simp [hp]), ih]

/-- Every survivor of the specification dedup is the first occurrence of its
key in the input list. -/
theorem specDedup_find? :
    ∀ (n : Nat) (l : List Issue), l.length ≤ n → ∀ i ∈ specDedup l,
      l.find? (fun j => decide (dedupKey j = dedupKey i)) = some i := by
  intro n
  induction n with
  | zero =>
    intro l hl i hi
    cases l with
    | nil => simp [specDedup] at hi
    | cons a t => simp at hl
  | succ n ih =>
    intro l hl i hi
    cases l with
    | nil => simp [specDedup] at hi
    | cons a t =>
      rw [specDedup_cons] at hi
      have hlen : (t.filter fun j => decide (dedupKey j ≠ dedupKey a)).length ≤ n := by
        have := List.length_filter_le (fun j => decide (dedupKey j ≠ dedupKey a)) t
        simp at hl
        omega
      rcases List.mem_cons.mp hi with h | h
      · subst h
        exact List.find?_cons_of_pos _ (by simp)
      · have hmem : i ∈ t.filter fun j => decide (dedupKey j ≠ dedupKey a) :=
          mem_of_mem_specDedup n _ hlen i h
        have hkey : dedupKey i ≠ dedupKey a := by
          have := List.of_mem_filter hmem
          simpa using this
        rw [List.find?_cons_of_neg _ (by simpa using fun hh => hkey hh.symm)]
        rw [← find?_filter_of_imp t (fun j => decide (dedupKey j = dedupKey i))
              (fun j => decide (dedupKey j ≠ dedupKey a))
              (fun x hx => by
                simp only [decide_eq_true_eq] at hx ⊢
                rw [hx]; exact hkey)]
        exact ih _ hlen i h

/-- Filtering by "key not seen yet" with an empty seen set keeps everything. -/
theorem filter_not_mem_nil (l : List Issue) :
    (l.filter fun i =>
      decide (dedupKey i ∉ ([] : List (Option Int × Option String)))) = l := by
  simp

/-- C4: for every `(code, filename)` input and every quadruple of analyzer
outputs, `analyze_file` forces each finding's category to its producing
variant's, concatenates in the fixed order style → bug → performance →
best_practice, deduplicates by `(line, description)` keeping first
occurrences (`specDedup`, worded from the spec), and truncates to 10; the
returned list has length ≤ 10, and every retained finding is the first
occurrence of its key in the concatenation — so a key reported by several
variants keeps the earliest variant's category. -/
theorem claim4_analyze_file_dedup_order (ag : Analyzers) (code filename : String) :
    analyze_file ag code filename =
      { name := filename
        issues := (specDedup (taggedIssues ag code filename)).take 10 } ∧
    (analyze_file ag code filename).issues.length ≤ 10 ∧
    ∀ i ∈ (analyze_file ag code filename).issues,
      (taggedIssues ag code filename).find?
        (fun j => decide (dedupKey j = dedupKey i)) = some i := by
  have hd : dedupLoop (taggedIssues ag code filename) [] =
      specDedup (taggedIssues ag code filename) := by
    rw [dedupLoop_eq_specDedup, filter_not_mem_nil]
  refine ⟨?_, ?_, ?_⟩
  · unfold analyze_file
    rw [hd]
  · exact List.length_take_le 10 _
  · intro i hi
    simp only [analyze_file] at hi
    have h1 : i ∈ specDedup (taggedIssues ag code filename) := by
      rw [← hd]
      exact (List.take_sublist 10 _).subset hi
    exact specDedup_find? (taggedIssues ag code filename).length _ le_rfl i h1

/-- Concrete agents for witnesses: style and bug both report key `(1, dup)`,
bug additionally reports key `(2, b)`. -/
def agW : Analyzers :=
  { style := fun _ _ => [⟨some 1, some "dup", "", none⟩]
    bug := fun _ _ => [⟨some 1, some "dup", "", none⟩, ⟨some 2, some "b", "", none⟩]
    performance := fun _ _ => []
    best_practices := fun _ _ => [] }

/-- A finding retained by `analyze_file agW`: the duplicate-key issue with
the style agent's category. -/
def issueW : Issue := ⟨some 1, some "dup", "style", none⟩

/-- Witness for C4 at concrete agents: the duplicate-key finding kept by
`analyze_file` is the first occurrence of its key in the concatenation (so
it carries the style category, not the bug category). -/
theorem claim4_witness :
    (taggedIssues agW "c" "f.py").find?
      (fun j => decide (dedupKey j = dedupKey issueW)) = some issueW :=
  (claim4_analyze_file_dedup_order agW "c" "f.py").2.2 issueW (by decide)

/-- What one `analyze_pr` loop iteration can do: leave the accumulator
unchanged (any skip branch, or an empty analysis), or append the analysis of
the file's possibly-truncated content when it has at least one issue. -/
theorem prStep_cases (ag : Analyzers) (fc : String → Option String)
    (acc : List Issue × List FileResult) (fd : PRFile) :
    prStep ag fc acc fd = acc ∨
    ∃ code0, fc fd.filename = some code0 ∧ code0.length ≠ 0 ∧
      (analyze_file ag (if code0.length > 10000 then strTake code0 10000 else code0)
          fd.filename).issues ≠ [] ∧
      prStep ag fc acc fd =
        (acc.1 ++ (analyze_file ag
            (if code0.length > 10000 then strTake code0 10000 else code0)
            fd.filename).issues,
         acc.2 ++ [analyze_file ag
            (if code0.length > 10000 then strTake code0 10000 else code0)
            fd.filename]) := by
  by_cases hc : is_code_file fd.filename
  · cases hfc : fc fd.filename with
    | none => left; simp [prStep, hc, hfc]
    | some code0 =>
      by_cases hz : code0.length = 0
      · left; simp [prStep, hc, hfc, hz]
      · by_cases he : (analyze_file ag
            (if code0.length > 10000 then strTake code0 10000 else code0)
            fd.filename).issues.isEmpty
        · left; simp [prStep, hc, hfc, hz, he]
        · right
          refine ⟨code0, by simp [hfc], hz, ?_, ?_⟩
          · simpa [List.isEmpty_iff] using he
          · simp [prStep, hc, hfc, hz, he]
  · left; simp [prStep, hc]

/-- The `analyze_pr` fold invariant: `all_issues` is the concatenation of the
issue lists of `results_files`, and every recorded file has at least one
issue. -/
theorem analyze_pr_fold_inv (ag : Analyzers) (fc : String → Option String)
    (pr_files : List PRFile) :
    ∀ acc : List Issue × List FileResult,
      acc.1 = (acc.2.map FileResult.issues).flatten → (∀ f ∈ acc.2, f.issues ≠ []) →
      (pr_files.foldl (prStep ag fc) acc).1 =
        (((pr_files.foldl (prStep ag fc) acc).2.map FileResult.issues).flatten) ∧
      ∀ f ∈ (pr_files.foldl (prStep ag fc) acc).2, f.issues ≠ [] := by
  induction pr_files with
  | nil => exact fun acc h1 h2 => ⟨h1, h2⟩
  | cons fd rest ih =>
    intro acc h1 h2
    rw [List.foldl_cons]
    rcases prStep_cases ag fc acc fd with heq | ⟨code0, _, _, hne, heq⟩
    · rw [heq]; exact ih acc h1 h2
    · rw [heq]
      apply ih
      · simp [h1, List.flatten_append]
      · intro f hf
        rcases List.mem_append.mp hf with hf | hf
        · exact h2 f hf
        · rw [List.mem_singleton.mp hf]; exact hne

/-- C5: in every `AnalysisResult` produced by `analyze_pr`, `total_files` is
the length of `files`, `total_issues` is the sum of the per-file issue-list
lengths, `critical_issues` counts the issues with forced category `"bug"`
across the included files (hence `critical_issues ≤ total_issues`), and only
files with at least one surviving issue appear in `files`. -/
theorem claim5_summary_consistent (ag : Analyzers) (pr_files : List PRFile)
    (fc : String → Option String) :
    (analyze_pr ag pr_files fc).summary.total_files =
      (analyze_pr ag pr_files fc).files.length ∧
    (analyze_pr ag pr_files fc).summary.total_issues =
      ((analyze_pr ag pr_files fc).files.map fun f => f.issues.length).sum ∧
    (analyze_pr ag pr_files fc).summary.critical_issues =
      (((analyze_pr ag pr_files fc).files.map FileResult.issues).flatten.filter
        fun i => i.category = "bug").length ∧
    (analyze_pr ag pr_files fc).summary.critical_issues ≤
      (analyze_pr ag pr_files fc).summary.total_issues ∧
    ∀ f ∈ (analyze_pr ag pr_files fc).files, f.issues ≠ [] := by
  have hmain := analyze_pr_fold_inv ag fc pr_files ([], []) (by simp) (by simp)
  refine ⟨rfl, ?_, ?_, List.length_filter_le _ _, hmain.2⟩
  · show (pr_files.foldl (prStep ag fc) ([], [])).1.length =
      ((pr_files.foldl (prStep ag fc) ([], [])).2.map fun f => f.issues.length).sum
    rw [hmain.1, List.length_flatten, List.map_map]
    rfl
  · show ((pr_files.foldl (prStep ag fc) ([], [])).1.filter fun i => i.category = "bug").length =
      (((pr_files.foldl (prStep ag fc) ([], [])).2.map FileResult.issues).flatten.filter
        fun i => i.category = "bug").length
    rw [hmain.1]

/-- The file list and content dict used by several witnesses: one code file
with a short nonempty content. -/
def prW : List PRFile := [⟨"f.py"⟩]

/-- Content dict giving every filename the content `"c"`. -/
def fcW : String → Option String := fun _ => some "c"

/-- Witness for C5 at concrete inputs: the single recorded file of
`analyze_pr agW prW fcW` has a nonempty issue list. -/
theorem claim5_witness :
    (⟨"f.py", [⟨some 1, some "dup", "style", none⟩,
               ⟨some 2, some "b", "bug", none⟩]⟩ : FileResult).issues ≠ [] :=
  (claim5_summary_consistent agW prW fcW).2.2.2.2 _ (by decide)

/-- Length of a Python slice. -/
theorem strTake_length (s : String) (n : Nat) :
    (strTake s n).length = min n s.length := by
  cases s with
  | mk data => simp [strTake, String.length]

/-- A slice at least as long as the string is the string. -/
theorem strTake_of_le (s : String) (n : Nat) (h : s.length ≤ n) : strTake s n = s := by
  cases s with
  | mk data =>
    simp only [strTake, String.length] at *
    rw [List.take_of_length_le h]

/-- Slicing twice at the same bound equals slicing once. -/
theorem strTake_idem (s : String) (n : Nat) :
    strTake (strTake s n) n = strTake s n := by
  cases s with
  | mk data => simp [strTake, List.take_take]

/-- `analyze_file` depends only on the agents' outputs at its own input. -/
theorem analyze_file_congr (ag ag' : Analyzers) (code fn : String)
    (h : ag.style code fn = ag'.style code fn ∧ ag.bug code fn = ag'.bug code fn ∧
         ag.performance code fn = ag'.performance code fn ∧
         ag.best_practices code fn = ag'.best_practices code fn) :
    analyze_file ag code fn = analyze_file ag' code fn := by
  unfold analyze_file taggedIssues
  rw [h.1, h.2.1, h.2.2.1, h.2.2.2]

/-- One `analyze_pr` iteration is unchanged when the content dict is replaced
by one with the same 10000-character truncations and the agents by agents
that agree on all inputs of length ≤ 10000. -/
theorem prStep_congr (ag ag' : Analyzers) (fc fc' : String → Option String)
    (hfc : ∀ f, (fc f).map (strTake · 10000) = (fc' f).map (strTake · 10000))
    (hag : ∀ code fn, code.length ≤ 10000 →
      ag.style code fn = ag'.style code fn ∧ ag.bug code fn = ag'.bug code fn ∧
      ag.performance code fn = ag'.performance code fn ∧
      ag.best_practices code fn = ag'.best_practices code fn)
    (acc : List Issue × List FileResult) (fd : PRFile) :
    prStep ag fc acc fd = prStep ag' fc' acc fd := by
  by_cases hc : is_code_file fd.filename
  case neg => simp [prStep, hc]
  case pos =>
    have h := hfc fd.filename
    cases h1 : fc fd.filename with
    | none =>
      cases h2 : fc' fd.filename with
      | none => simp [prStep, hc, h1, h2]
      | some c' => rw [h1, h2] at h; simp at h
    | some c =>
      cases h2 : fc' fd.filename with
      | none => rw [h1, h2] at h; simp at h
      | some c' =>
        rw [h1, h2] at h
        simp only [Option.map_some', Option.some.injEq] at h
        have hlen : min 10000 c.length = min 10000 c'.length := by
          have := congrArg String.length h
          rwa [strTake_length, strTake_length] at this
        by_cases hz : c.length = 0
        · have hz' : c'.length = 0 := by omega
          simp [prStep, hc, h1, h2, hz, hz']
        · have hz' : ¬ c'.length = 0 := by omega
          have hhand : (if c.length > 10000 then strTake c 10000 else c) =
              (if c'.length > 10000 then strTake c' 10000 else c') := by
            by_cases hb : c.length > 10000 <;> by_cases hb' : c'.length > 10000
            · rw [if_pos hb, if_pos hb', h]
            · rw [if_pos hb, if_neg hb', h, strTake_of_le c' 10000 (by omega)]
            · rw [if_neg hb, if_pos hb', ← h, strTake_of_le c 10000 (by omega)]
            · rw [if_neg hb, if_neg hb',
                  ← strTake_of_le c 10000 (by omega), h,
                  strTake_of_le c' 10000 (by omega)]
          have hle : (if c'.length > 10000 then strTake c' 10000 else c').length ≤ 10000 := by
            by_cases hb' : c'.length > 10000
            · rw [if_pos hb', strTake_length]; omega
            · rw [if_neg hb']; omega
          have hfile :
              analyze_file ag (if c'.length > 10000 then strTake c' 10000 else c')
                fd.filename =
              analyze_file ag' (if c'.length > 10000 then strTake c' 10000 else c')
                fd.filename :=
            analyze_file_congr ag ag' _ fd.filename (hag _ fd.filename hle)
          simp only [prStep, hc, not_true_eq_false, if_false, h1, h2, hz, hz', if_neg]
          rw [hhand, hfile]

/-- C7: `analyze_pr` observes file contents only through their first
10000 characters, and the agents only through their behaviour on inputs of
length ≤ 10000. First conjunct: replacing the content dict and the agents by
any pair agreeing on those observations leaves the result identical (so no
Analyzer ever observes a character beyond index 10000, and nothing in the
result distinguishes a truncated file from a whole one). Second conjunct:
in particular, pre-truncating every content to its 10000-character prefix
changes nothing — the content handed to the Analyzers is exactly that
prefix. -/
theorem claim7_truncation_governance :
    (∀ (ag ag' : Analyzers) (pr_files : List PRFile)
        (fc fc' : String → Option String),
      (∀ f, (fc f).map (strTake · 10000) = (fc' f).map (strTake · 10000)) →
      (∀ code fn, code.length ≤ 10000 →
        ag.style code fn = ag'.style code fn ∧ ag.bug code fn = ag'.bug code fn ∧
        ag.performance code fn = ag'.performance code fn ∧
        ag.best_practices code fn = ag'.best_practices code fn) →
      analyze_pr ag pr_files fc = analyze_pr ag' pr_files fc') ∧
    (∀ (ag : Analyzers) (pr_files : List PRFile) (fc : String → Option String),
      analyze_pr ag pr_files fc =
        analyze_pr ag pr_files (fun f => (fc f).map (strTake · 10000))) := by
  have main : ∀ (ag ag' : Analyzers) (pr_files : List PRFile)
      (fc fc' : String → Option String),
      (∀ f, (fc f).map (strTake · 10000) = (fc' f).map (strTake · 10000)) →
      (∀ code fn, code.length ≤ 10000 →
        ag.style code fn = ag'.style code fn ∧ ag.bug code fn = ag'.bug code fn ∧
        ag.performance code fn = ag'.performance code fn ∧
        ag.best_practices code fn = ag'.best_practices code fn) →
      analyze_pr ag pr_files fc = analyze_pr ag' pr_files fc' := by
    intro ag ag' pr_files fc fc' hfc hag
    have hfold : ∀ (l : List PRFile) (acc : List Issue × List FileResult),
        l.foldl (prStep ag fc) acc = l.foldl (prStep ag' fc') acc := by
      intro l
      induction l with
      | nil => intro acc; rfl
      | cons fd rest ih =>
        intro acc
        rw [List.foldl_cons, List.foldl_cons,
            prStep_congr ag ag' fc fc' hfc hag acc fd, ih]
    simp only [analyze_pr]
    rw [hfold pr_files ([], [])]
  refine ⟨main, ?_⟩
  intro ag pr_files fc
  apply main
  · intro f
    cases fc f with
    | none => rfl
    | some c => simp [strTake_idem]
  · exact fun _ _ _ => ⟨rfl, rfl, rfl, rfl⟩

/-- Witness for C7: two syntactically different content dicts with the same
truncations give identical results at concrete inputs. -/
theorem claim7_witness :
    analyze_pr agW prW (fun _ => some "c") =
      analyze_pr agW prW fcW :=
  claim7_truncation_governance.1 agW agW prW (fun _ => some "c") fcW
    (fun _ => rfl) (fun _ _ _ => ⟨rfl, rfl, rfl, rfl⟩)

/-- `fetchStep` when the blob fetch returns nothing. -/
theorem fetchStep_none (fetch fc : String → Option String) (fd : PRFile)
    (h : fetch fd.filename = none) : fetchStep fetch fc fd = fc := by
  simp [fetchStep, h]

/-- `fetchStep` when the blob fetch returns an admissible content. -/
theorem fetchStep_keep (fetch fc : String → Option String) (fd : PRFile)
    (content : String) (h : fetch fd.filename = some content)
    (hc : content.length ≠ 0 ∧ content.length < 100000) :
    fetchStep fetch fc fd =
      fun f => if f = fd.filename then some content else fc f := by
  simp only [fetchStep, h]
  rw [if_pos hc]

/-- `fetchStep` when the blob fetch returns an inadmissible content (empty,
or at least 100000 characters). -/
theorem fetchStep_drop (fetch fc : String → Option String) (fd : PRFile)
    (content : String) (h : fetch fd.filename = some content)
    (hc : ¬(content.length ≠ 0 ∧ content.length < 100000)) :
    fetchStep fetch fc fd = fc := by
  simp only [fetchStep, h]
  rw [if_neg hc]

/-- The fetch loop consults the blob fetcher only at the filenames of the
entries it iterates over. -/
theorem fetch_fold_congr (fetch fetch' : String → Option String) :
    ∀ (l : List PRFile) (fc : String → Option String),
      (∀ fd ∈ l, fetch fd.filename = fetch' fd.filename) →
      l.foldl (fetchStep fetch) fc = l.foldl (fetchStep fetch') fc := by
  intro l
  induction l with
  | nil => intro fc _; rfl
  | cons fd rest ih =>
    intro fc h
    rw [List.foldl_cons, List.foldl_cons]
    have hstep : fetchStep fetch fc fd = fetchStep fetch' fc fd := by
      simp only [fetchStep]
      rw [h fd (List.mem_cons_self fd rest)]
    rw [hstep]
    exact ih _ (fun x hx => h x (List.mem_cons_of_mem fd hx))

/-- A key can be present in the built content dict only if the loop iterated
over an entry with that filename (or it was present initially). -/
theorem fetch_fold_dom (fetch : String → Option String) :
    ∀ (l : List PRFile) (fc : String → Option String) (f : String),
      ((l.foldl (fetchStep fetch) fc) f).isSome →
      (fc f).isSome ∨ f ∈ l.map PRFile.filename := by
  intro l
  induction l with
  | nil => intro fc f h; exact Or.inl h
  | cons fd rest ih =>
    intro fc f h
    rw [List.foldl_cons] at h
    rcases ih _ f h with h1 | h1
    · cases hf : fetch fd.filename with
      | none =>
        rw [fetchStep_none fetch fc fd hf] at h1
        exact Or.inl h1
      | some content =>
        by_cases hcond : content.length ≠ 0 ∧ content.length < 100000
        · rw [fetchStep_keep fetch fc fd content hf hcond] at h1
          by_cases heq : f = fd.filename
          · right
            rw [List.map_cons, heq]
            exact List.mem_cons_self _ _
          · simp only [if_neg heq] at h1
            exact Or.inl h1
        · rw [fetchStep_drop fetch fc fd content hf hcond] at h1
          exact Or.inl h1
    · right
      rw [List.map_cons]
      exact List.mem_cons_of_mem _ h1

/-- Every file recorded in an `analyze_pr` result has an entry in the content
dict. -/
theorem analyze_pr_files_dom (ag : Analyzers) (fc : String → Option String)
    (pr_files : List PRFile) :
    ∀ fr ∈ (analyze_pr ag pr_files fc).files, (fc fr.name).isSome := by
  have key : ∀ (l : List PRFile) (acc : List Issue × List FileResult),
      (∀ fr ∈ acc.2, (fc fr.name).isSome) →
      ∀ fr ∈ (l.foldl (prStep ag fc) acc).2, (fc fr.name).isSome := by
    intro l
    induction l with
    | nil => exact fun acc h => h
    | cons fd rest ih =>
      intro acc h
      rw [List.foldl_cons]
      apply ih
      rcases prStep_cases ag fc acc fd with heq | ⟨code0, hfc0, _, _, heq⟩
      · rw [heq]; exact h
      · rw [heq]
        intro fr hfr
        rcases List.mem_append.mp hfr with hfr | hfr
        · exact h fr hfr
        · rw [List.mem_singleton.mp hfr]
          simp [analyze_file, hfc0]
  exact key pr_files ([], []) (by simp)

/-- In a duplicate-free list, the element at an index `≥ n` does not occur in
the first `n` elements. -/
theorem not_mem_take_of_nodup {α : Type} (L : List α) (hnd : L.Nodup)
    (n i : Nat) (h : i < L.length) (hi : n ≤ i) :
    L.get ⟨i, h⟩ ∉ L.take n := by
  intro hmem
  have hnd' : (L.take n ++ L.drop n).Nodup := by
    rw [List.take_append_drop n L]; exact hnd
  have hdisj := (List.nodup_append.mp hnd').2.2
  have hlen : i - n < (L.drop n).length := by
    rw [List.length_drop]; omega
  have hdrop : L.get ⟨i, h⟩ ∈ L.drop n := by
    have h1 : (L.drop n).get ⟨i - n, hlen⟩ = L.get ⟨i, h⟩ := by
      simp only [List.get_eq_getElem, List.getElem_drop]
      congr 1
      omega
    rw [← h1]
    exact List.get_mem _ _ _
  exact hdisj hmem hdrop

/-- C6: only the first 15 files of the listing are ever fetched or analyzed.
First conjunct: the content-fetch phase consults the blob fetcher only at
the filenames of `pr_files[:15]` (its result is unchanged by any fetcher
agreeing there). Second conjunct: when the listing's filenames are distinct
(as file paths of a change set are), the file at any index ≥ 15 appears in
no `FileResult` of the analysis of the fetched contents. -/
theorem claim6_first15_only (ag : Analyzers) (fetch fetch' : String → Option String)
    (pr_files : List PRFile) :
    ((∀ fd ∈ pr_files.take 15, fetch fd.filename = fetch' fd.filename) →
      fetch_contents fetch pr_files = fetch_contents fetch' pr_files) ∧
    ((pr_files.map PRFile.filename).Nodup →
      ∀ i (h : i < pr_files.length), 15 ≤ i →
        (pr_files.get ⟨i, h⟩).filename ∉
          (analyze_pr ag pr_files (fetch_contents fetch pr_files)).files.map
            FileResult.name) := by
  constructor
  · intro h
    unfold fetch_contents
    exact fetch_fold_congr fetch fetch' _ _ h
  · intro hnd i h hi hmem
    rcases List.mem_map.mp hmem with ⟨fr, hfr, hname⟩
    have hsome := analyze_pr_files_dom ag _ pr_files fr hfr
    rw [hname] at hsome
    have hdom := fetch_fold_dom fetch (pr_files.take 15) (fun _ => none) _ hsome
    rcases hdom with h0 | h0
    · simp at h0
    · rw [List.map_take] at h0
      have hgetL : (pr_files.map PRFile.filename).get
          ⟨i, by rw [List.length_map]; exact h⟩ = (pr_files.get ⟨i, h⟩).filename := by
        simp
      exact not_mem_take_of_nodup (pr_files.map PRFile.filename) hnd 15 i
        (by rw [List.length_map]; exact h) hi (hgetL ▸ h0)

/-- A 16-entry listing with pairwise-distinct code filenames. -/
def prW16 : List PRFile :=
  [⟨"f0.py"⟩, ⟨"f1.py"⟩, ⟨"f2.py"⟩, ⟨"f3.py"⟩, ⟨"f4.py"⟩, ⟨"f5.py"⟩, ⟨"f6.py"⟩,
   ⟨"f7.py"⟩, ⟨"f8.py"⟩, ⟨"f9.py"⟩, ⟨"fa.py"⟩, ⟨"fb.py"⟩, ⟨"fc.py"⟩, ⟨"fd.py"⟩,
   ⟨"fe.py"⟩, ⟨"ff.py"⟩]

/-- Witness for C6: in a 16-file listing with distinct names, the 16th file
(index 15) appears in no `FileResult`, even though every filename fetches
content and every analyzed file reports issues. -/
theorem claim6_witness :
    (prW16.get ⟨15, by decide⟩).filename ∉
      (analyze_pr agW prW16 (fetch_contents fcW prW16)).files.map FileResult.name :=
  (claim6_first15_only agW fcW fcW prW16).2 (by decide) 15 (by decide) (by decide)

/-- A blob content longer than the discard bound never enters the content
dict. -/
theorem fetch_fold_skip_large (fetch : String → Option String) (f c : String)
    (hf : fetch f = some c) (hlen : 100000 ≤ c.length) :
    ∀ (l : List PRFile) (fc : String → Option String), fc f = none →
      (l.foldl (fetchStep fetch) fc) f = none := by
  intro l
  induction l with
  | nil => intro fc h; exact h
  | cons fd rest ih =>
    intro fc h
    rw [List.foldl_cons]
    apply ih
    cases hfd : fetch fd.filename with
    | none => rw [fetchStep_none fetch fc fd hfd]; exact h
    | some content =>
      by_cases hcond : content.length ≠ 0 ∧ content.length < 100000
      · rw [fetchStep_keep fetch fc fd content hfd hcond]
        by_cases heq : f = fd.filename
        · exfalso
          rw [heq, hfd] at hf
          cases hf
          omega
        · simp only [if_neg heq]
          exact h
      · rw [fetchStep_drop fetch fc fd content hfd hcond]; exact h

/-- Everything in the built content dict came from the fetcher, is nonempty,
and is strictly shorter than 100000 characters. -/
theorem fetch_fold_bound (fetch : String → Option String) :
    ∀ (l : List PRFile) (fc : String → Option String) (f c : String),
      (∀ g c0, fc g = some c0 →
        fetch g = some c0 ∧ c0.length ≠ 0 ∧ c0.length < 100000) →
      (l.foldl (fetchStep fetch) fc) f = some c →
      fetch f = some c ∧ c.length ≠ 0 ∧ c.length < 100000 := by
  intro l
  induction l with
  | nil => intro fc f c hinv h; exact hinv f c h
  | cons fd rest ih =>
    intro fc f c hinv h
    rw [List.foldl_cons] at h
    refine ih _ f c ?_ h
    intro g c0 hg
    cases hfd : fetch fd.filename with
    | none =>
      rw [fetchStep_none fetch fc fd hfd] at hg
      exact hinv g c0 hg
    | some content =>
      by_cases hcond : content.length ≠ 0 ∧ content.length < 100000
      · rw [fetchStep_keep fetch fc fd content hfd hcond] at hg
        by_cases heq : g = fd.filename
        · simp only [if_pos heq] at hg
          cases hg
          exact ⟨heq ▸ hfd, hcond⟩
        · simp only [if_neg heq] at hg
          exact hinv g c0 hg
      · rw [fetchStep_drop fetch fc fd content hfd hcond] at hg
        exact hinv g c0 hg

/-- C10: a fetched blob of length ≥ 100000 characters is silently discarded,
not truncated — its file gets no content entry and appears in no
`FileResult` — and conversely every content entry handed to the analysis is
a fetcher result that is nonempty and strictly shorter than 100000
characters. -/
theorem claim10_large_content_discarded :
    (∀ (ag : Analyzers) (fetch : String → Option String) (pr_files : List PRFile)
        (f c : String),
      fetch f = some c → 100000 ≤ c.length →
      fetch_contents fetch pr_files f = none ∧
      f ∉ (analyze_pr ag pr_files (fetch_contents fetch pr_files)).files.map
            FileResult.name) ∧
    (∀ (fetch : String → Option String) (pr_files : List PRFile) (f c : String),
      fetch_contents fetch pr_files f = some c →
      fetch f = some c ∧ c.length ≠ 0 ∧ c.length < 100000) := by
  constructor
  · intro ag fetch pr_files f c hf hlen
    have hnone : fetch_contents fetch pr_files f = none :=
      fetch_fold_skip_large fetch f c hf hlen _ _ rfl
    refine ⟨hnone, ?_⟩
    intro hmem
    rcases List.mem_map.mp hmem with ⟨fr, hfr, hname⟩
    have hs := analyze_pr_files_dom ag _ pr_files fr hfr
    rw [hname, hnone] at hs
    simp at hs
  · intro fetch pr_files f c h
    exact fetch_fold_bound fetch _ _ f c (fun g c0 hg => by simp at hg) h

/-- A blob content exactly at the 100000-character discard bound. -/
def bigContent : String := String.mk (List.replicate 100000 'a')

/-- Unfolding equation for `bigContent`. -/
theorem bigContent_def : bigContent = String.mk (List.replicate 100000 'a') := rfl

/-- The at-bound content has length exactly 100000. -/
theorem bigContent_length : bigContent.length = 100000 := by
  rw [bigContent_def, String.length_mk, List.length_replicate]

/-- A fetcher returning the at-bound content for every filename. -/
def fetchBig : String → Option String := fun _ => some bigContent

/-- Witness for C10: the at-bound content is discarded (no content entry for
its file), while a short content entry is certified fetched, nonempty and
under the bound. -/
theorem claim10_witness :
    fetch_contents fetchBig prW "f.py" = none ∧
    (fcW "f.py" = some "c" ∧ ("c" : String).length ≠ 0 ∧
      ("c" : String).length < 100000) :=
  ⟨(claim10_large_content_discarded.1 agW fetchBig prW "f.py" bigContent rfl
      (le_of_eq bigContent_length.symm)).1,
   claim10_large_content_discarded.2 fcW prW "f.py" "c" (by decide)⟩

/-- `markProcessing` on an existing record. -/
theorem markProcessing_get (store : Store) (tid : String) (t : TaskRecord)
    (h : store tid = some t) :
    markProcessing store tid tid = some { t with status := "processing" } := by
  simp [markProcessing, h, setTask]

/-- `markProcessing` on a missing record leaves the store untouched. -/
theorem markProcessing_none (store : Store) (tid : String) (h : store tid = none) :
    markProcessing store tid = store := by
  simp [markProcessing, h]

/-- `markFailed` on an existing record. -/
theorem markFailed_get (store : Store) (tid msg : String) (t : TaskRecord)
    (h : store tid = some t) :
    markFailed store tid msg tid =
      some { t with status := "failed", error_message := some msg } := by
  simp [markFailed, h, setTask]

/-- `markFailed` on a missing record leaves the store untouched. -/
theorem markFailed_none (store : Store) (tid msg : String) (h : store tid = none) :
    markFailed store tid msg = store := by
  simp [markFailed, h]

/-- `markCompleted` on an existing record. -/
theorem markCompleted_get (store : Store) (tid payload : String) (t : TaskRecord)
    (h : store tid = some t) :
    markCompleted store tid payload tid =
      some { t with status := "completed", results := some payload,
                    error_message := none } := by
  simp [markCompleted, h, setTask]

/-- `markCompleted` on a missing record leaves the store untouched. -/
theorem markCompleted_none (store : Store) (tid payload : String)
    (h : store tid = none) :
    markCompleted store tid payload = store := by
  simp [markCompleted, h]

/-- An empty PR file list makes the task body raise the "No code files"
message from the processing-marked store. -/
theorem runBody_empty (env : RunEnv) (store : Store) (tid : String)
    (h : get_pr_files env.listFilesHTTP = []) :
    runBody env store tid = .error (noCodeFilesMsg, markProcessing store tid) := by
  simp [runBody, h]

/-- With a nonempty file list and the nominal (non-raising) analysis step,
the task body succeeds with the orchestrator's result and records it. -/
theorem runBody_nominal (ag : Analyzers) (listF : Except String (List PRFile))
    (fetch : String → Option String) (dumps : AnalysisResult → String)
    (store : Store) (tid : String) (h : get_pr_files listF ≠ []) :
    runBody (nominalEnv ag listF fetch dumps) store tid =
      .ok (analyze_pr ag (get_pr_files listF)
             (fetch_contents fetch (get_pr_files listF)),
           markCompleted (markProcessing store tid) tid
             (dumps (analyze_pr ag (get_pr_files listF)
                (fetch_contents fetch (get_pr_files listF))))) := by
  simp [runBody, nominalEnv, List.isEmpty_iff, h]

/-- An execution with the retry counter at the Celery maximum never schedules
another retry. -/
theorem attempt2_no_retry (env : RunEnv) (s : Store) (tid msg : String) (c : Nat) :
    (analyze_github_pr env s tid 2).1 ≠ .retry msg c := by
  unfold analyze_github_pr
  cases hb : runBody env s tid with
  | ok v =>
    obtain ⟨res, st⟩ := v
    simp
  | error e =>
    obtain ⟨m, sa⟩ := e
    by_cases ht : isTerminalMsg m <;> simp [ht]

/-- A store holding one fresh pending job `"t1"`. -/
def storeW : Store := setTask (fun _ => none) "t1" ⟨"pending", none, none⟩

set_option maxRecDepth 8000 in
/-- Counterexample to C1 as stated: the ContentFetcher's listing call throws
a transient network error, but `get_pr_files` swallows it into an empty
list, so the run fails with the terminal "No code files" message and no
retry is scheduled (the outcome is a plain re-raise at retry count 0, not
`retry` at countdown 5). -/
theorem claim1_counterexample :
    (analyze_github_pr
        (nominalEnv agW (.error "ConnectionError: api.github.com unreachable")
          fcW (fun _ => "{}")) storeW "t1" 0).1 = .raised noCodeFilesMsg ∧
    (analyze_github_pr
        (nominalEnv agW (.error "ConnectionError: api.github.com unreachable")
          fcW (fun _ => "{}")) storeW "t1" 0).1 ≠ .retry noCodeFilesMsg 5 ∧
    (analyze_github_pr
        (nominalEnv agW (.error "ConnectionError: api.github.com unreachable")
          fcW (fun _ => "{}")) storeW "t1" 0).2 "t1" =
      some ⟨"failed", none, some noCodeFilesMsg⟩ := by
  refine ⟨by decide, by decide, by decide⟩

/-- C1 (amended): a transient failure that reaches the runner's `except`
clause (an exception from the pipeline body whose message matches neither
terminal pattern — ContentFetcher network errors never do reach it, being
swallowed into an empty file list) marks the job failed with the message
recorded and schedules a retry of the same job at countdown 5 while fewer
than 2 retries have been used, re-raises once they are exhausted; and the
delivery loop therefore executes a job at most 3 times (2 retries) and never
rests in a retry state. -/
theorem claim1_retry_policy :
    (∀ (env : RunEnv) (store : Store) (tid msg : String) (sAt : Store)
        (retries : Nat),
      runBody env store tid = .error (msg, sAt) →
      isTerminalMsg msg = false →
      ((retries < 2 →
          analyze_github_pr env store tid retries =
            (.retry msg 5, markFailed sAt tid msg)) ∧
       (2 ≤ retries →
          analyze_github_pr env store tid retries =
            (.raised msg, markFailed sAt tid msg)) ∧
       (∀ t, sAt tid = some t →
          (analyze_github_pr env store tid retries).2 tid =
            some { t with status := "failed", error_message := some msg }))) ∧
    (∀ (env : RunEnv) (store : Store) (tid : String),
      (runJob env store tid).2.2 ≤ 3 ∧
      ∀ msg c, (runJob env store tid).1 ≠ .retry msg c) := by
  constructor
  · intro env store tid msg sAt retries h ht
    have hterm : ¬ (isTerminalMsg msg = true) := by rw [ht]; exact Bool.false_ne_true
    refine ⟨?_, ?_, ?_⟩
    · intro hr
      simp [analyze_github_pr, h, hterm, hr]
    · intro hr
      have hr' : ¬ retries < 2 := by omega
      simp [analyze_github_pr, h, hterm, hr']
    · intro t hsome
      have h2 : (analyze_github_pr env store tid retries).2 = markFailed sAt tid msg := by
        by_cases hr : retries < 2
        · simp [analyze_github_pr, h, hterm, hr]
        · simp [analyze_github_pr, h, hterm, hr]
      rw [h2]
      exact markFailed_get sAt tid msg t hsome
  · intro env store tid
    unfold runJob
    cases h0 : analyze_github_pr env store tid 0 with
    | mk o1 s1 =>
      cases o1 with
      | success r => exact ⟨by simp, by simp⟩
      | raised m => exact ⟨by simp, by simp⟩
      | retry m c =>
        cases h1 : analyze_github_pr env s1 tid 1 with
        | mk o2 s2 =>
          cases o2 with
          | success r2 => exact ⟨by simp [h1], by simp [h1]⟩
          | raised m2 => exact ⟨by simp [h1], by simp [h1]⟩
          | retry m2 c2 =>
            cases h2 : analyze_github_pr env s2 tid 2 with
            | mk o3 s3 =>
              refine ⟨by simp [h1, h2], ?_⟩
              intro msg c0
              have h3 := attempt2_no_retry env s2 tid msg c0
              rw [h2] at h3
              simpa [h1, h2] using h3

/-- Witness for C1 (amended): a concrete transient failure (the analysis
step raises "boom") at retry count 0 is retried at countdown 5 with the
failure recorded, and the delivery loop for it executes exactly 3 times. -/
theorem claim1_witness :
    (analyze_github_pr
        ⟨.ok prW, fcW, fun _ _ => .error "boom", fun _ => "{}"⟩
        storeW "t1" 0).2 "t1" =
      some ⟨"failed", none, some "boom"⟩ := by
  have h := (claim1_retry_policy.1
    ⟨.ok prW, fcW, fun _ _ => .error "boom", fun _ => "{}"⟩
    storeW "t1" "boom" (markProcessing storeW "t1") 0
    (by simp [runBody, get_pr_files, prW]) (by decide)).2.2
  exact h ⟨"processing", none, none⟩ (by decide)

set_option maxRecDepth 8000 in
/-- The "No code files" message matches the terminal classifier. -/
theorem isTerminalMsg_noCodeFiles : isTerminalMsg noCodeFilesMsg = true := by
  decide

/-- The task body either raises carrying the processing-marked store, or
succeeds recording the serialized result over it. -/
theorem runBody_cases (env : RunEnv) (store : Store) (tid : String) :
    (∃ msg, runBody env store tid = .error (msg, markProcessing store tid)) ∨
    (∃ res, runBody env store tid =
      .ok (res, markCompleted (markProcessing store tid) tid (env.dumps res))) := by
  unfold runBody
  by_cases he : (get_pr_files env.listFilesHTTP).isEmpty
  · left
    exact ⟨noCodeFilesMsg, by simp [he]⟩
  · cases ha : env.runAnalysis (get_pr_files env.listFilesHTTP)
        (fetch_contents env.fetchBlob (get_pr_files env.listFilesHTTP)) with
    | error msg => left; exact ⟨msg, by simp [he, ha]⟩
    | ok res => right; exact ⟨res, by simp [he, ha]⟩

/-- Counterexample to C2 as stated: a nonempty file listing in which no file
passes the eligibility checks (here: a single non-code file) ends the job
COMPLETED with an empty result payload, not failed. -/
theorem claim2_counterexample :
    (analyze_github_pr (nominalEnv agW (.ok [⟨"README.md"⟩]) fcW (fun _ => "{}"))
        storeW "t1" 0).1 =
      .success ⟨[], ⟨0, 0, 0, "LangChain Multi-Agent (Ollama)"⟩⟩ ∧
    (analyze_github_pr (nominalEnv agW (.ok [⟨"README.md"⟩]) fcW (fun _ => "{}"))
        storeW "t1" 0).2 "t1" =
      some ⟨"completed", some "{}", none⟩ := by
  exact ⟨by decide, by decide⟩

/-- C2 (amended): an empty ContentFetcher file listing (including a listing
call that failed, which `get_pr_files` converts to an empty list) ends the
run failed with the "No code files" message and schedules no retry; a
nonempty listing in which no file is eligible instead completes the job with
the orchestrator's (empty) result. -/
theorem claim2_no_eligible_files :
    (∀ (env : RunEnv) (store : Store) (tid : String) (retries : Nat),
      get_pr_files env.listFilesHTTP = [] →
      (analyze_github_pr env store tid retries).1 = .raised noCodeFilesMsg ∧
      (∀ msg c, (analyze_github_pr env store tid retries).1 ≠ .retry msg c) ∧
      (∀ t, store tid = some t →
        (analyze_github_pr env store tid retries).2 tid =
          some { t with status := "failed",
                        error_message := some noCodeFilesMsg })) ∧
    (∀ (ag : Analyzers) (listF : Except String (List PRFile))
        (fetch : String → Option String) (dumps : AnalysisResult → String)
        (store : Store) (tid : String) (retries : Nat),
      get_pr_files listF ≠ [] →
      (analyze_github_pr (nominalEnv ag listF fetch dumps) store tid retries).1 =
        .success (analyze_pr ag (get_pr_files listF)
          (fetch_contents fetch (get_pr_files listF))) ∧
      (∀ t, store tid = some t →
        ∃ t', (analyze_github_pr (nominalEnv ag listF fetch dumps)
                store tid retries).2 tid = some t' ∧
              t'.status = "completed")) := by
  constructor
  · intro env store tid retries h
    have houtcome : analyze_github_pr env store tid retries =
        (.raised noCodeFilesMsg,
         markFailed (markProcessing store tid) tid noCodeFilesMsg) := by
      simp [analyze_github_pr, runBody_empty env store tid h, isTerminalMsg_noCodeFiles]
    refine ⟨by rw [houtcome], ?_, ?_⟩
    · intro msg c hc
      rw [houtcome] at hc
      simp at hc
    · intro t ht
      rw [houtcome]
      have h1 := markProcessing_get store tid t ht
      have h2 := markFailed_get (markProcessing store tid) tid noCodeFilesMsg _ h1
      simpa using h2
  · intro ag listF fetch dumps store tid retries h
    have hbody := runBody_nominal ag listF fetch dumps store tid h
    have houtcome : analyze_github_pr (nominalEnv ag listF fetch dumps)
          store tid retries =
        (.success (analyze_pr ag (get_pr_files listF)
            (fetch_contents fetch (get_pr_files listF))),
         markCompleted (markProcessing store tid) tid
           (dumps (analyze_pr ag (get_pr_files listF)
              (fetch_contents fetch (get_pr_files listF))))) := by
      simp [analyze_github_pr, hbody]
    refine ⟨by rw [houtcome], ?_⟩
    intro t ht
    rw [houtcome]
    have h1 := markProcessing_get store tid t ht
    have h2 := markCompleted_get (markProcessing store tid) tid
      (dumps (analyze_pr ag (get_pr_files listF)
        (fetch_contents fetch (get_pr_files listF)))) _ h1
    exact ⟨_, by simpa using h2, rfl⟩

/-- Witness for C2 (amended): at concrete inputs, an empty listing raises
the "No code files" message, and a listing with only a non-code file
completes with the orchestrator's result. -/
theorem claim2_witness :
    (analyze_github_pr (nominalEnv agW (.ok []) fcW (fun _ => "{}"))
        storeW "t1" 0).1 = .raised noCodeFilesMsg ∧
    (analyze_github_pr (nominalEnv agW (.ok [⟨"README.md"⟩]) fcW (fun _ => "{}"))
        storeW "t1" 0).1 =
      .success (analyze_pr agW (get_pr_files (.ok [⟨"README.md"⟩]))
        (fetch_contents fcW (get_pr_files (.ok [⟨"README.md"⟩])))) :=
  ⟨(claim2_no_eligible_files.1 (nominalEnv agW (.ok []) fcW (fun _ => "{}"))
      storeW "t1" 0 rfl).1,
   (claim2_no_eligible_files.2 agW (.ok [⟨"README.md"⟩]) fcW (fun _ => "{}")
      storeW "t1" 0 (by decide)).1⟩

/-- Counterexample to C3 as stated: after a transient failure (the analysis
step raised "boom"), the retried attempt's first act — marking the record
`processing` — does NOT clear the previous attempt's `error_message`, so a
processing job carries a set `errorMessage`. -/
theorem claim3_counterexample :
    (markProcessing ((analyze_github_pr
        ⟨.ok prW, fcW, fun _ _ => .error "boom", fun _ => "{}"⟩
        storeW "t1" 0).2) "t1") "t1" =
      some ⟨"processing", none, some "boom"⟩ := by
  decide

/-- C3 (amended): for an attempt that starts from a record with neither
`results` nor `error_message` set (a fresh pending job), the invariant
holds: the processing state carries neither field, and at the attempt's end
exactly one of them is set (completed → payload set and error cleared;
failed → error set and payload absent). Entering `processing` does not clear
leftover fields, so a retried attempt's processing state retains the prior
attempt's `error_message`. -/
theorem claim3_terminal_exclusive :
    ∀ (env : RunEnv) (store : Store) (tid : String) (retries : Nat)
      (t : TaskRecord),
      store tid = some t → t.results = none → t.error_message = none →
      (markProcessing store tid) tid = some ⟨"processing", none, none⟩ ∧
      ∃ t', (analyze_github_pr env store tid retries).2 tid = some t' ∧
        ((t'.status = "completed" ∧ t'.results.isSome ∧ t'.error_message = none) ∨
         (t'.status = "failed" ∧ t'.results = none ∧ t'.error_message.isSome)) := by
  intro env store tid retries t h hres herr
  have hproc : (markProcessing store tid) tid = some ⟨"processing", none, none⟩ := by
    rw [markProcessing_get store tid t h, hres, herr]
  refine ⟨hproc, ?_⟩
  rcases runBody_cases env store tid with ⟨msg, hb⟩ | ⟨res, hb⟩
  · have h2 : (analyze_github_pr env store tid retries).2 =
        markFailed (markProcessing store tid) tid msg := by
      by_cases ht : isTerminalMsg msg <;> by_cases hr : retries < 2 <;>
        simp [analyze_github_pr, hb, ht, hr]
    refine ⟨⟨"failed", none, some msg⟩, ?_, Or.inr ⟨rfl, rfl, rfl⟩⟩
    rw [h2, markFailed_get (markProcessing store tid) tid msg _ hproc]
  · have h2 : (analyze_github_pr env store tid retries).2 =
        markCompleted (markProcessing store tid) tid (env.dumps res) := by
      simp [analyze_github_pr, hb]
    refine ⟨⟨"completed", some (env.dumps res), none⟩, ?_, Or.inl ⟨rfl, rfl, rfl⟩⟩
    rw [h2, markCompleted_get (markProcessing store tid) tid _ _ hproc]

/-- Witness for C3 (amended) at a concrete clean pending record and a
nominal run. -/
theorem claim3_witness :
    (markProcessing storeW "t1") "t1" = some ⟨"processing", none, none⟩ ∧
    ∃ t', (analyze_github_pr (nominalEnv agW (.ok prW) fcW (fun _ => "{}"))
        storeW "t1" 0).2 "t1" = some t' ∧
      ((t'.status = "completed" ∧ t'.results.isSome ∧ t'.error_message = none) ∨
       (t'.status = "failed" ∧ t'.results = none ∧ t'.error_message.isSome)) :=
  claim3_terminal_exclusive (nominalEnv agW (.ok prW) fcW (fun _ => "{}"))
    storeW "t1" 0 ⟨"pending", none, none⟩ (by decide) rfl rfl

/-- The empty store: no job record exists at all. -/
def storeNone : Store := fun _ => none

/-- Counterexample to C9 as stated: with no job record, the run is NOT
dropped — the whole pipeline executes (fetch, per-file analysis,
aggregation) and returns a full analysis result. -/
theorem claim9_counterexample :
    (analyze_github_pr (nominalEnv agW (.ok prW) fcW (fun _ => "{}"))
        storeNone "t1" 0).1 =
      .success ⟨[⟨"f.py", [⟨some 1, some "dup", "style", none⟩,
                           ⟨some 2, some "b", "bug", none⟩]⟩],
        ⟨1, 2, 1, "LangChain Multi-Agent (Ollama)"⟩⟩ := by
  decide

/-- C9 (amended): when no record with the given identifier exists, the run
still executes the pipeline and, under the nominal analysis step with a
nonempty listing, returns the orchestrator's result; it updates no record —
the store is returned exactly as it was. -/
theorem claim9_missing_record :
    (∀ (env : RunEnv) (store : Store) (tid : String) (retries : Nat),
      store tid = none →
      (analyze_github_pr env store tid retries).2 = store) ∧
    (∀ (ag : Analyzers) (listF : Except String (List PRFile))
        (fetch : String → Option String) (dumps : AnalysisResult → String)
        (store : Store) (tid : String) (retries : Nat),
      store tid = none → get_pr_files listF ≠ [] →
      (analyze_github_pr (nominalEnv ag listF fetch dumps) store tid retries).1 =
        .success (analyze_pr ag (get_pr_files listF)
          (fetch_contents fetch (get_pr_files listF)))) := by
  constructor
  · intro env store tid retries h
    have h1 : markProcessing store tid = store := markProcessing_none store tid h
    rcases runBody_cases env store tid with ⟨msg, hb⟩ | ⟨res, hb⟩
    · have h2 : markFailed (markProcessing store tid) tid msg = store := by
        rw [h1]; exact markFailed_none store tid msg h
      by_cases ht : isTerminalMsg msg <;> by_cases hr : retries < 2 <;>
        simp [analyze_github_pr, hb, ht, hr, h2]
    · have h2 : markCompleted (markProcessing store tid) tid (env.dumps res) =
          store := by
        rw [h1]; exact markCompleted_none store tid _ h
      simp [analyze_github_pr, hb, h2]
  · intro ag listF fetch dumps store tid retries h hne
    have hbody := runBody_nominal ag listF fetch dumps store tid hne
    simp [analyze_github_pr, hbody]

/-- Witness for C9 (amended) at a concrete empty store and nominal
environment. -/
theorem claim9_witness :
    (analyze_github_pr (nominalEnv agW (.ok prW) fcW (fun _ => "{}"))
        storeNone "t1" 0).2 = storeNone ∧
    (analyze_github_pr (nominalEnv agW (.ok prW) fcW (fun _ => "{}"))
        storeNone "t1" 0).1 =
      .success (analyze_pr agW (get_pr_files (.ok prW))
        (fetch_contents fcW (get_pr_files (.ok prW)))) :=
  ⟨claim9_missing_record.1 _ storeNone "t1" 0 rfl,
   claim9_missing_record.2 agW (.ok prW) fcW (fun _ => "{}") storeNone "t1" 0 rfl
     (by decide)⟩

/-- Counterexample to C8 as stated: on a corrupt stored payload the endpoint
does return successfully with the payload absent, but the recorded message
is `"Invalid results JSON"`, not `"Invalid results payload"`. -/
theorem claim8_counterexample :
    get_results (fun _ => none)
      (setTask (fun _ => none) "t1" ⟨"completed", some "corrupt", none⟩) "t1" =
      .ok ⟨"t1", "completed", some "Invalid results JSON", none⟩ ∧
    ("Invalid results JSON" : String) ≠ "Invalid results payload" := by
  exact ⟨by rfl, by decide⟩

/-- C8 (amended): for every job whose stored payload is nonempty and does
not parse, the result query does not fail: it returns with the parsed
payload absent and `error_message = "Invalid results JSON"`. -/
theorem claim8_corrupt_payload :
    ∀ (loads : String → Option AnalysisResult) (store : Store) (tid s : String)
      (t : TaskRecord),
      store tid = some t → t.results = some s → s.length ≠ 0 → loads s = none →
      get_results loads store tid =
        .ok ⟨tid, t.status, some "Invalid results JSON", none⟩ := by
  intro loads store tid s t h hres hlen hload
  simp [get_results, h, hres, hlen, hload]

/-- Witness for C8 (amended) at a concrete store with a corrupt payload. -/
theorem claim8_witness :
    get_results (fun _ => none)
      (setTask (fun _ => none) "t2" ⟨"completed", some "xyz", some "old"⟩) "t2" =
      .ok ⟨"t2", "completed", some "Invalid results JSON", none⟩ :=
  claim8_corrupt_payload (fun _ => none) _ "t2" "xyz"
    ⟨"completed", some "xyz", some "old"⟩ (by decide) rfl (by decide) rfl

end CodeReview

example : CodeReview.is_code_file "a.py" = true := by decide

example : CodeReview.is_code_file "README.md" = false := by decide

example :
    (CodeReview.analyze_file
      { style := fun _ _ => [⟨some 1, some "dup", "", none⟩]
        bug := fun _ _ => [⟨some 1, some "dup", "", none⟩, ⟨some 2, some "b", "", none⟩]
        performance := fun _ _ => []
        best_practices := fun _ _ => [] } "c" "f.py").issues =
    [⟨some 1, some "dup", "style", none⟩, ⟨some 2, some "b", "bug", none⟩] := by
  decide
